import Mathlib

/-!
Verification of the Quantum_Notebooks repository.

This file shallowly embeds the Python code of the three notebooks:

* `HW5_logic_and_grover-checkpoint.ipynb` — the 1-in-3-SAT oracle
  (`apply_oracle`) and the ladder-of-ancillas `CnX` helper.  Circuits are
  embedded as lists of gates over an abstract qubit type, and the action of
  the purely classical gates (`x`, `cx`, `ccx`, `barrier`) on
  computational-basis states is given by `run`, a fold of per-gate state
  updates.  Python exceptions (`ValueError`, `TypeError`, `AssertionError`)
  are modelled with `Except`.
* the Schrödinger notebook — the discretized Hamiltonian `Schro.H` and the
  `evolve` generator (complex phases, `Complex.exp`).
* the CHSH notebook — the measurement-basis-change helpers `XW`, `XV`,
  `ZW`, `ZV`, embedded as functions from their arguments (and the ambient
  module-level register `qreg`, which `XV` actually reads) to gate lists.
-/

namespace QN

/-- Gates appended by the oracle / `CnX` code, over a qubit type `α`.
`barrier` is qiskit's no-op visual separator. -/
inductive Gate (α : Type) where
  | x (q : α)
  | cx (c t : α)
  | ccx (a b t : α)
  | barrier
  deriving DecidableEq, Repr

/-- Update a single qubit of a computational-basis state. -/
def upd {α : Type} [DecidableEq α] (q : α) (b : Bool) (s : α → Bool) : α → Bool :=
  fun r => if r = q then b else s r

/-- Action of one classical gate on a computational-basis state. -/
def applyGate {α : Type} [DecidableEq α] : Gate α → (α → Bool) → (α → Bool)
  | .x q, s => upd q (!(s q)) s
  | .cx c t, s => upd t (xor (s t) (s c)) s
  | .ccx a b t, s => upd t (xor (s t) (s a && s b)) s
  | .barrier, s => s

/-- Run a gate list left to right on a computational-basis state. -/
def run {α : Type} [DecidableEq α] (gs : List (Gate α)) (s : α → Bool) : α → Bool :=
  gs.foldl (fun s g => applyGate g s) s

theorem run_nil {α : Type} [DecidableEq α] (s : α → Bool) : run ([] : List (Gate α)) s = s := rfl

theorem run_cons {α : Type} [DecidableEq α] (g : Gate α) (gs : List (Gate α)) (s : α → Bool) :
    run (g :: gs) s = run gs (applyGate g s) := rfl

theorem run_append {α : Type} [DecidableEq α] (gs hs : List (Gate α)) (s : α → Bool) :
    run (gs ++ hs) s = run hs (run gs s) := by
  simp [run, List.foldl_append]

/-- Python exceptions raised by the notebook code. -/
inductive PyErr where
  | valueError (msg : String)
  | typeError
  | assertionError
  deriving DecidableEq, Repr

/-! ## The 1-in-3-SAT oracle (`apply_oracle`)

Qubits of the Grover circuit: the input register `f_in` (3 qubits in the
notebook), the output register `f_out` (1 qubit) and the ancilla register
`aux` (`num_clauses + 1` qubits). -/

/-- A qubit of the oracle circuit, named by register and index. -/
inductive Q where
  | fin (i : Nat)
  | fout (i : Nat)
  | aux (i : Nat)
  deriving DecidableEq, Repr

/-- Index into `f_in` named by a signed literal: `circ.cx(f_in[literal-1], …)`
for positive literals, `f_in[-literal-1]` for negative ones. -/
def litIdx (l : ℤ) : Nat := if l > 0 then (l - 1).toNat else (-l - 1).toNat

/-- Gates of the `for literal in clause` loop body: positive literals get a
single `cx` onto `aux[k]`, negative literals an `x` on the input qubit
followed by the `cx`. -/
def litGates (k : Nat) (l : ℤ) : List (Gate Q) :=
  if l > 0 then [.cx (.fin (litIdx l)) (.aux k)]
  else [.x (.fin (litIdx l)), .cx (.fin (litIdx l)) (.aux k)]

/-- The whole `for literal in clause` XOR loop for clause `k`. -/
def litLoop (k : Nat) (c : List ℤ) : List (Gate Q) :=
  c.flatMap (litGates k)

/-- The trailing `for literal in clause: if literal < 0: circ.x(...)` loop
that un-flips negated inputs. -/
def negTail (c : List ℤ) : List (Gate Q) :=
  c.flatMap (fun l => if l < 0 then [Gate.x (Q.fin (litIdx l))] else [])

/-- All gates `apply_oracle` appends for one clause `(k, clause)` of the
`enumerate(expression)` loop (`num_clauses = nc`): the XOR loop, a barrier,
the fixed `ccx(f_in[0], f_in[1], aux[nc]); ccx(f_in[2], aux[nc], aux[k])`
pair computing the AND term, a barrier, the un-computation
`ccx(f_in[0], f_in[1], aux[nc])` of the helper ancilla, the X-un-flip loop
and a final barrier. -/
def clauseBlock (nc k : Nat) (c : List ℤ) : List (Gate Q) :=
  litLoop k c ++
  [Gate.barrier, Gate.ccx (Q.fin 0) (Q.fin 1) (Q.aux nc),
   Gate.ccx (Q.fin 2) (Q.aux nc) (Q.aux k), Gate.barrier,
   Gate.ccx (Q.fin 0) (Q.fin 1) (Q.aux nc)] ++
  negTail c ++ [Gate.barrier]

/-- The `for (k, clause) in enumerate(expression)` loop starting at index `k`. -/
def loopFrom (nc : Nat) : Nat → List (List ℤ) → List (Gate Q)
  | _, [] => []
  | k, c :: rest => clauseBlock nc k c ++ loopFrom nc (k + 1) rest

/-- The `if/elif` ladder combining the per-clause ancillas onto `f_out[0]`;
more than 3 clauses (or zero, falling through every branch) raises
`ValueError('We only allow at most 3 clauses')`. -/
def combineGates (nc : Nat) : Except PyErr (List (Gate Q)) :=
  if nc = 1 then .ok [Gate.cx (Q.aux 0) (Q.fout 0)]
  else if nc = 2 then .ok [Gate.ccx (Q.aux 0) (Q.aux 1) (Q.fout 0)]
  else if nc = 3 then .ok [Gate.ccx (Q.aux 0) (Q.aux 1) (Q.aux nc),
                           Gate.ccx (Q.aux 2) (Q.aux nc) (Q.fout 0),
                           Gate.ccx (Q.aux 0) (Q.aux 1) (Q.aux nc)]
  else .error (.valueError "We only allow at most 3 clauses")

/-- `apply_oracle(circ, f_in, f_out, aux, n, expression)`: the clause loop,
the combining ladder, a barrier, and the identical flip-back clause loop.
On the raising path the embedding returns just the exception (in Python the
clause-loop gates are already in `circ` when the `ValueError` propagates;
the claims about the raising path concern only whether the call raises).
Qubits are indexed symbolically, so qiskit's register-bounds errors for
literals outside `±1..±3` are outside this model. -/
def apply_oracle (expression : List (List ℤ)) : Except PyErr (List (Gate Q)) := do
  let nc := expression.length
  let comb ← combineGates nc
  return loopFrom nc 0 expression ++ comb ++ [Gate.barrier] ++ loopFrom nc 0 expression

/-- The gate list of a successful `apply_oracle` call (`[]` on an exception). -/
def okGates : Except PyErr (List (Gate Q)) → List (Gate Q)
  | .ok gs => gs
  | .error _ => []

end QN

namespace QN

/-! ### Pure model of a clause block

`litRun` replays the XOR loop on a pure state: the `f_in` values as a
function `ℕ → Bool` plus the accumulated value of `aux[k]`. -/

/-- Flip one position of an input-register valuation. -/
def flipAt (v : ℕ → Bool) (i : ℕ) : ℕ → Bool :=
  fun j => if j = i then !(v i) else v j

/-- Effect of one literal of the XOR loop on `(f_in values, aux[k])`. -/
def litStep (p : (ℕ → Bool) × Bool) (l : ℤ) : (ℕ → Bool) × Bool :=
  if l > 0 then (p.1, xor p.2 (p.1 (litIdx l)))
  else (flipAt p.1 (litIdx l), xor p.2 (!(p.1 (litIdx l))))

/-- Replay of the whole XOR loop. -/
def litRun (c : List ℤ) (v : ℕ → Bool) (acc : Bool) : (ℕ → Bool) × Bool :=
  c.foldl litStep (v, acc)

/-- Effect of one literal of the trailing un-flip loop. -/
def tailStep (v : ℕ → Bool) (l : ℤ) : ℕ → Bool :=
  if l < 0 then flipAt v (litIdx l) else v

/-- Replay of the trailing un-flip loop. -/
def tailRun (c : List ℤ) (v : ℕ → Bool) : ℕ → Bool :=
  c.foldl tailStep v

/-- Overwrite the `f_in` part of a state and the single ancilla `aux[k]`. -/
def setFA (v : ℕ → Bool) (k : ℕ) (b : Bool) (s : Q → Bool) : Q → Bool :=
  fun q => match q with
  | .fin i => v i
  | .aux j => if j = k then b else s (Q.aux j)
  | .fout i => s (Q.fout i)

/-- Overwrite only the `f_in` part of a state. -/
def setF (v : ℕ → Bool) (s : Q → Bool) : Q → Bool :=
  fun q => match q with
  | .fin i => v i
  | q => s q

theorem setFA_upd_aux (v : ℕ → Bool) (k : ℕ) (b c : Bool) (s : Q → Bool) :
    setFA v k b (upd (Q.aux k) c s) = setFA v k b s := by
  funext q
  cases q <;> simp [setFA, upd]
  rename_i j
  split <;> simp_all

theorem setFA_upd_fin (v : ℕ → Bool) (k i : ℕ) (b c : Bool) (s : Q → Bool) :
    setFA v k b (upd (Q.fin i) c s) = setFA v k b s := by
  funext q
  cases q <;> simp [setFA, upd]

theorem setF_upd_fin (v : ℕ → Bool) (i : ℕ) (c : Bool) (s : Q → Bool) :
    setF v (upd (Q.fin i) c s) = setF v s := by
  funext q
  cases q <;> simp [setF, upd]

theorem upd_fin_apply_fin (i j : ℕ) (b : Bool) (s : Q → Bool) :
    upd (Q.fin i) b s (Q.fin j) = if j = i then b else s (Q.fin j) := by
  simp only [upd, Q.fin.injEq]

theorem run_litLoop (c : List ℤ) : ∀ (k : Nat) (s : Q → Bool),
    run (litLoop k c) s =
      setFA (litRun c (fun i => s (Q.fin i)) (s (Q.aux k))).1 k
        (litRun c (fun i => s (Q.fin i)) (s (Q.aux k))).2 s := by
  induction c with
  | nil =>
    intro k s
    funext q
    cases q <;> simp [litLoop, litRun, run, setFA]
    rename_i j
    split <;> simp_all
  | cons l c ih =>
    intro k s
    have hsplit : litLoop k (l :: c) = litGates k l ++ litLoop k c := by
      simp [litLoop]
    rw [hsplit, run_append]
    by_cases hl : l > 0
    · simp only [litGates, if_pos hl]
      have hrun : run [Gate.cx (Q.fin (litIdx l)) (Q.aux k)] s =
          upd (Q.aux k) (xor (s (Q.aux k)) (s (Q.fin (litIdx l)))) s := by
        simp [run, applyGate]
      rw [hrun, ih]
      have hfin : (fun i => upd (Q.aux k) (xor (s (Q.aux k)) (s (Q.fin (litIdx l)))) s (Q.fin i))
          = fun i => s (Q.fin i) := by
        funext i; simp [upd]
      have haux : upd (Q.aux k) (xor (s (Q.aux k)) (s (Q.fin (litIdx l)))) s (Q.aux k)
          = xor (s (Q.aux k)) (s (Q.fin (litIdx l))) := by
        simp [upd]
      rw [hfin, haux, setFA_upd_aux]
      have hstep : litRun (l :: c) (fun i => s (Q.fin i)) (s (Q.aux k)) =
          litRun c (fun i => s (Q.fin i)) (xor (s (Q.aux k)) (s (Q.fin (litIdx l)))) := by
        simp [litRun, litStep, if_pos hl]
      rw [hstep]
    · simp only [litGates, if_neg hl]
      set i0 := litIdx l with hi0
      have hrun : run [Gate.x (Q.fin i0), Gate.cx (Q.fin i0) (Q.aux k)] s =
          upd (Q.aux k) (xor (s (Q.aux k)) (!(s (Q.fin i0))))
            (upd (Q.fin i0) (!(s (Q.fin i0))) s) := by
      -- the x gate flips f_in[i0]; the following cx reads the flipped value
        funext q
        simp [run, applyGate, upd]
      rw [hrun, ih]
      have hfin : (fun i => upd (Q.aux k) (xor (s (Q.aux k)) (!(s (Q.fin i0))))
            (upd (Q.fin i0) (!(s (Q.fin i0))) s) (Q.fin i))
          = flipAt (fun i => s (Q.fin i)) i0 := by
        funext i
        simp [upd, flipAt, Q.fin.injEq]
      have haux : upd (Q.aux k) (xor (s (Q.aux k)) (!(s (Q.fin i0))))
            (upd (Q.fin i0) (!(s (Q.fin i0))) s) (Q.aux k)
          = xor (s (Q.aux k)) (!(s (Q.fin i0))) := by
        simp [upd]
      rw [hfin, haux, setFA_upd_aux, setFA_upd_fin]
      have hstep : litRun (l :: c) (fun i => s (Q.fin i)) (s (Q.aux k)) =
          litRun c (flipAt (fun i => s (Q.fin i)) i0)
            (xor (s (Q.aux k)) (!(s (Q.fin i0)))) := by
        simp [litRun, litStep, if_neg hl, hi0]
      rw [hstep]

theorem run_negTail (c : List ℤ) : ∀ (s : Q → Bool),
    run (negTail c) s = setF (tailRun c (fun i => s (Q.fin i))) s := by
  induction c with
  | nil =>
    intro s
    funext q
    cases q <;> simp [negTail, tailRun, run, setF]
  | cons l c ih =>
    intro s
    have hsplit : negTail (l :: c) =
        (if l < 0 then [Gate.x (Q.fin (litIdx l))] else []) ++ negTail c := by
      simp [negTail]
    rw [hsplit, run_append]
    by_cases hl : l < 0
    · simp only [if_pos hl]
      have hrun : run [Gate.x (Q.fin (litIdx l))] s =
          upd (Q.fin (litIdx l)) (!(s (Q.fin (litIdx l)))) s := by
        simp [run, applyGate]
      rw [hrun, ih]
      have hfin : (fun i => upd (Q.fin (litIdx l)) (!(s (Q.fin (litIdx l)))) s (Q.fin i))
          = flipAt (fun i => s (Q.fin i)) (litIdx l) := by
        funext i
        simp [upd, flipAt, Q.fin.injEq]
      rw [hfin, setF_upd_fin]
      have hstep : tailRun (l :: c) (fun i => s (Q.fin i)) =
          tailRun c (flipAt (fun i => s (Q.fin i)) (litIdx l)) := by
        simp [tailRun, tailStep, if_pos hl]
      rw [hstep]
    · simp only [if_neg hl]
      have hstep : tailRun (l :: c) (fun i => s (Q.fin i)) =
          tailRun c (fun i => s (Q.fin i)) := by
        simp [tailRun, tailStep, if_neg hl]
      rw [hstep, run_nil, ih]

end QN

namespace QN

theorem flipAt_flipAt (v : ℕ → Bool) (i : ℕ) : flipAt (flipAt v i) i = v := by
  funext j
  simp only [flipAt]
  split <;> simp_all

theorem flipAt_comm (v : ℕ → Bool) (i j : ℕ) :
    flipAt (flipAt v j) i = flipAt (flipAt v i) j := by
  funext r
  by_cases hij : i = j
  · subst hij; rfl
  · simp only [flipAt]
    by_cases hri : r = i <;> by_cases hrj : r = j <;> simp_all

theorem tailRun_flipAt (c : List ℤ) : ∀ (v : ℕ → Bool) (i : ℕ),
    tailRun c (flipAt v i) = flipAt (tailRun c v) i := by
  induction c with
  | nil => intro v i; rfl
  | cons l c ih =>
    intro v i
    have hstep : tailStep (flipAt v i) l = flipAt (tailStep v l) i := by
      simp only [tailStep]
      split
      · rw [flipAt_comm]
      · rfl
    calc tailRun (l :: c) (flipAt v i) = tailRun c (tailStep (flipAt v i) l) := rfl
      _ = tailRun c (flipAt (tailStep v l) i) := by rw [hstep]
      _ = flipAt (tailRun c (tailStep v l)) i := ih _ i
      _ = flipAt (tailRun (l :: c) v) i := rfl

theorem tailRun_invol (c : List ℤ) : ∀ v : ℕ → Bool, tailRun c (tailRun c v) = v := by
  induction c with
  | nil => intro v; rfl
  | cons l c ih =>
    intro v
    show tailRun c (tailStep (tailRun c (tailStep v l)) l) = v
    by_cases hl : l < 0
    · simp only [tailStep, if_pos hl]
      rw [tailRun_flipAt, ih, flipAt_flipAt]
    · simp only [tailStep, if_neg hl]
      rw [ih]

theorem litRun_fst (c : List ℤ) : ∀ (v : ℕ → Bool) (a : Bool), (∀ l ∈ c, l ≠ 0) →
    (litRun c v a).1 = tailRun c v := by
  induction c with
  | nil => intro v a _; rfl
  | cons l c ih =>
    intro v a hc
    have hl0 : l ≠ 0 := hc l (by simp)
    have hrest : ∀ x ∈ c, x ≠ 0 := fun x hx => hc x (by simp [hx])
    show (litRun c (litStep (v, a) l).1 (litStep (v, a) l).2).1 = tailRun c (tailStep v l)
    rw [ih _ _ hrest]
    by_cases hl : l > 0
    · simp [litStep, tailStep, hl, not_lt.mpr (le_of_lt hl)]
    · have hneg : l < 0 := lt_of_le_of_ne (not_lt.mp hl) hl0
      simp [litStep, tailStep, hl, hneg]

theorem litRun_acc (c : List ℤ) : ∀ (v : ℕ → Bool) (a : Bool),
    (litRun c v a).2 = xor a (litRun c v false).2 := by
  induction c with
  | nil => intro v a; simp [litRun]
  | cons l c ih =>
    intro v a
    show (litRun c (litStep (v, a) l).1 (litStep (v, a) l).2).2
      = xor a (litRun c (litStep (v, false) l).1 (litStep (v, false) l).2).2
    by_cases hl : l > 0
    · simp only [litStep, if_pos hl]
      rw [ih _ (xor a (v (litIdx l))), ih _ (xor false (v (litIdx l)))]
      cases a <;> cases v (litIdx l) <;> cases (litRun c v false).2 <;> rfl
    · simp only [litStep, if_neg hl]
      rw [ih _ (xor a (!(v (litIdx l)))), ih _ (xor false (!(v (litIdx l))))]
      cases a <;> cases v (litIdx l) <;> cases (litRun c (flipAt v (litIdx l)) false).2 <;> rfl

/-- Value the block for clause `c` XORs onto `aux[k]`, given the `f_in`
valuation `v`, the initial value `a` of `aux[k]` and the initial value
`anc` of the helper ancilla `aux[num_clauses]`. -/
def blockVal (c : List ℤ) (v : ℕ → Bool) (a anc : Bool) : Bool :=
  xor (litRun c v a).2
    ((litRun c v a).1 2 && (xor anc ((litRun c v a).1 0 && (litRun c v a).1 1)))

/-- The value the code actually computes onto `aux[k]` for clause `c`, from
all-zero ancillas: the XOR of the literals, XOR the AND of the (flipped)
first three input qubits. -/
def hval (c : List ℤ) (v : ℕ → Bool) : Bool :=
  blockVal c v false false

theorem run_midGates (nc k : Nat) (hk : k ≠ nc) (t : Q → Bool) :
    run [Gate.barrier, Gate.ccx (Q.fin 0) (Q.fin 1) (Q.aux nc),
         Gate.ccx (Q.fin 2) (Q.aux nc) (Q.aux k), Gate.barrier,
         Gate.ccx (Q.fin 0) (Q.fin 1) (Q.aux nc)] t =
      upd (Q.aux k)
        (xor (t (Q.aux k))
          (t (Q.fin 2) && (xor (t (Q.aux nc)) (t (Q.fin 0) && t (Q.fin 1))))) t := by
  have hk2 : nc ≠ k := Ne.symm hk
  funext q
  simp only [run, List.foldl, applyGate, upd]
  cases q with
  | fin i => simp
  | fout i => simp
  | aux j =>
    by_cases hjk : j = k
    · subst hjk
      simp [hk, hk2, Q.aux.injEq]
    · by_cases hjn : j = nc
      · subst hjn
        simp [hk, hk2, Q.aux.injEq, Bool.xor_assoc]
      · simp [hjk, hjn, Q.aux.injEq]

end QN

namespace QN

theorem run_clauseBlock (nc k : Nat) (c : List ℤ) (s : Q → Bool) (hk : k ≠ nc)
    (hc : ∀ l ∈ c, l ≠ 0) :
    run (clauseBlock nc k c) s =
      upd (Q.aux k) (blockVal c (fun i => s (Q.fin i)) (s (Q.aux k)) (s (Q.aux nc))) s := by
  have hk2 : nc ≠ k := Ne.symm hk
  simp only [clauseBlock]
  rw [run_append, run_append, run_append, run_litLoop]
  set v := fun i => s (Q.fin i) with hv
  set p := litRun c v (s (Q.aux k)) with hp
  set X := blockVal c v (s (Q.aux k)) (s (Q.aux nc)) with hX
  set s1 := setFA p.1 k p.2 s with hs1
  have e2 : ∀ i, s1 (Q.fin i) = p.1 i := fun i => rfl
  have h2 : run [Gate.barrier, Gate.ccx (Q.fin 0) (Q.fin 1) (Q.aux nc),
      Gate.ccx (Q.fin 2) (Q.aux nc) (Q.aux k), Gate.barrier,
      Gate.ccx (Q.fin 0) (Q.fin 1) (Q.aux nc)] s1 = upd (Q.aux k) X s1 := by
    rw [run_midGates nc k hk]
    have ek : s1 (Q.aux k) = p.2 := by simp [hs1, setFA]
    have en : s1 (Q.aux nc) = s (Q.aux nc) := by simp [hs1, setFA, hk2]
    rw [ek, en, e2, e2, e2, hX, hp, blockVal]
  rw [h2]
  have hfins : (fun i => upd (Q.aux k) X s1 (Q.fin i)) = p.1 := by
    funext i
    simp [upd, e2]
  have htail : tailRun c p.1 = v := by
    rw [hp, litRun_fst c v (s (Q.aux k)) hc, tailRun_invol]
  have h3 : run (negTail c) (upd (Q.aux k) X s1) = setF v (upd (Q.aux k) X s1) := by
    rw [run_negTail, hfins, htail]
  rw [h3]
  have h4 : run [Gate.barrier] (setF v (upd (Q.aux k) X s1)) = setF v (upd (Q.aux k) X s1) := rfl
  rw [h4]
  funext q
  cases q with
  | fin i => simp [setF, upd, hv]
  | fout i => simp [setF, upd, hs1, setFA]
  | aux j =>
    by_cases hjk : j = k
    · subst hjk
      simp [setF, upd]
    · simp [setF, upd, hjk, hs1, setFA]

end QN

namespace QN

theorem blockVal_xor (c : List ℤ) (v : ℕ → Bool) (a : Bool) (hc : ∀ l ∈ c, l ≠ 0) :
    blockVal c v a false = xor a (hval c v) := by
  simp only [blockVal, hval]
  rw [litRun_acc c v a, litRun_fst c v a hc, litRun_fst c v false hc]
  cases a <;> cases (litRun c v false).2 <;>
    cases tailRun c v 2 <;> cases tailRun c v 0 <;> cases tailRun c v 1 <;> rfl

theorem run_loopFrom (nc : Nat) (e : List (List ℤ)) : ∀ (k : Nat) (s : Q → Bool),
    k + e.length ≤ nc → s (Q.aux nc) = false → (∀ c ∈ e, ∀ l ∈ c, l ≠ 0) →
    ∀ q : Q, run (loopFrom nc k e) s q =
      match q with
      | Q.aux j =>
          if k ≤ j ∧ j < k + e.length
          then xor (s (Q.aux j)) (hval (e.getD (j - k) []) (fun i => s (Q.fin i)))
          else s (Q.aux j)
      | q => s q := by
  induction e with
  | nil =>
    intro k s _ _ _ q
    cases q with
    | aux j =>
      have hno : ¬(k ≤ j ∧ j < k) := by omega
      simp [loopFrom, run_nil, hno]
    | fin i => simp [loopFrom, run_nil]
    | fout i => simp [loopFrom, run_nil]
  | cons c rest ih =>
    intro k s hle hanc hz q
    have hkc : k ≠ nc := by
      simp only [List.length_cons] at hle; omega
    have hsplit : loopFrom nc k (c :: rest) = clauseBlock nc k c ++ loopFrom nc (k + 1) rest :=
      rfl
    rw [hsplit, run_append, run_clauseBlock nc k c s hkc (hz c (by simp))]
    rw [hanc, blockVal_xor c _ _ (hz c (by simp))]
    set s1 := upd (Q.aux k) (xor (s (Q.aux k)) (hval c (fun i => s (Q.fin i)))) s with hs1
    have hs1aux : ∀ j, j ≠ k → s1 (Q.aux j) = s (Q.aux j) := by
      intro j hj
      simp [hs1, upd, hj]
    have hs1fin : ∀ i, s1 (Q.fin i) = s (Q.fin i) := by
      intro i
      simp [hs1, upd]
    have hs1fout : ∀ i, s1 (Q.fout i) = s (Q.fout i) := by
      intro i
      simp [hs1, upd]
    have hfin1 : (fun i => s1 (Q.fin i)) = fun i => s (Q.fin i) := funext hs1fin
    have hrec := ih (k + 1) s1
      (by simp only [List.length_cons] at hle; omega)
      (by rw [hs1aux nc (Ne.symm hkc)]; exact hanc)
      (fun d hd l hl => hz d (by simp [hd]) l hl)
    cases q with
    | fin i =>
      rw [hrec (Q.fin i)]
      exact hs1fin i
    | fout i =>
      rw [hrec (Q.fout i)]
      exact hs1fout i
    | aux j =>
      rw [hrec (Q.aux j)]
      show (if k + 1 ≤ j ∧ j < k + 1 + rest.length
          then xor (s1 (Q.aux j)) (hval (rest.getD (j - (k + 1)) []) (fun i => s1 (Q.fin i)))
          else s1 (Q.aux j))
        = if k ≤ j ∧ j < k + (c :: rest).length
          then xor (s (Q.aux j)) (hval ((c :: rest).getD (j - k) []) (fun i => s (Q.fin i)))
          else s (Q.aux j)
      rw [hfin1]
      by_cases hjk : j = k
      · subst hjk
        rw [if_neg (by omega : ¬(j + 1 ≤ j ∧ j < j + 1 + rest.length))]
        rw [if_pos (by simp only [List.length_cons]; omega : j ≤ j ∧ j < j + (c :: rest).length)]
        simp [hs1, upd, Nat.sub_self]
      · by_cases hin : k + 1 ≤ j ∧ j < k + 1 + rest.length
        · rw [if_pos hin]
          rw [if_pos (by simp only [List.length_cons]; omega :
            k ≤ j ∧ j < k + (c :: rest).length)]
          rw [hs1aux j hjk]
          have hidx : j - k = (j - (k + 1)) + 1 := by omega
          rw [hidx, List.getD_cons_succ]
        · rw [if_neg hin]
          rw [if_neg (by simp only [List.length_cons]; omega :
            ¬(k ≤ j ∧ j < k + (c :: rest).length))]
          exact hs1aux j hjk

end QN

namespace QN

/-- Value of a signed literal under an `f_in` valuation (`i+1` ↦ `x_i`,
`-(i+1)` ↦ `NOT x_i`). -/
def litVal (v : ℕ → Bool) (l : ℤ) : Bool :=
  if l > 0 then v (litIdx l) else !(v (litIdx l))

/-- The transformed 1-in-3-SAT clause of the spec:
`g = l1 XOR l2 XOR l3 XOR (l1 AND l2 AND l3)`. -/
def gclause (c : List ℤ) (v : ℕ → Bool) : Bool :=
  match c with
  | [a, b, d] =>
      xor (xor (xor (litVal v a) (litVal v b)) (litVal v d))
        (litVal v a && litVal v b && litVal v d)
  | _ => false

/-- The transformed expression of the spec:
`Eprime = g_0 AND g_1 AND ... AND g_(M-1)`. -/
def Especk (e : List (List ℤ)) (v : ℕ → Bool) : Bool :=
  e.all (fun c => gclause c v)

/-- The six signed literals over the variables `x0`, `x1`, `x2`. -/
def lits6 : List ℤ := [1, -1, 2, -2, 3, -3]

/-- A clause of the intended shape: three signed literals over `x0`, `x1`,
`x2` naming three distinct variables. -/
def ValidClause (c : List ℤ) : Prop :=
  c.length = 3 ∧ (∀ l ∈ c, l ∈ lits6) ∧ (c.map Int.natAbs).Nodup

instance (c : List ℤ) : Decidable (ValidClause c) := by
  unfold ValidClause
  infer_instance

theorem lits6_idx : ∀ l ∈ lits6, litIdx l < 3 := by decide

theorem lits6_nonzero : ∀ l ∈ lits6, l ≠ 0 := by decide

theorem validClause_nonzero {c : List ℤ} (hc : ValidClause c) : ∀ l ∈ c, l ≠ 0 :=
  fun l hl => lits6_nonzero l (hc.2.1 l hl)

/-- The valuation determined by three bits on `x0`, `x1`, `x2`. -/
def tf (u v w : Bool) : ℕ → Bool :=
  fun i => if i = 0 then u else if i = 1 then v else if i = 2 then w else false

theorem tf_agree (v : ℕ → Bool) : ∀ i, i < 3 → v i = tf (v 0) (v 1) (v 2) i := by
  intro i hi
  interval_cases i <;> rfl

theorem litRun_congr (c : List ℤ) : ∀ (v w : ℕ → Bool) (a : Bool),
    (∀ l ∈ c, litIdx l < 3) → (∀ i, i < 3 → v i = w i) →
    (litRun c v a).2 = (litRun c w a).2 ∧
      ∀ i, i < 3 → (litRun c v a).1 i = (litRun c w a).1 i := by
  induction c with
  | nil => intro v w a _ hag; exact ⟨rfl, hag⟩
  | cons l c ih =>
    intro v w a hidx hag
    have hl3 : litIdx l < 3 := hidx l (by simp)
    have hrest : ∀ x ∈ c, litIdx x < 3 := fun x hx => hidx x (by simp [hx])
    have hcv : litRun (l :: c) v a = litRun c (litStep (v, a) l).1 (litStep (v, a) l).2 := rfl
    have hcw : litRun (l :: c) w a = litRun c (litStep (w, a) l).1 (litStep (w, a) l).2 := rfl
    rw [hcv, hcw]
    by_cases hl : l > 0
    · simp only [litStep, if_pos hl]
      rw [hag (litIdx l) hl3]
      exact ih v w (xor a (w (litIdx l))) hrest hag
    · simp only [litStep, if_neg hl]
      rw [hag (litIdx l) hl3]
      have hag2 : ∀ i, i < 3 → flipAt v (litIdx l) i = flipAt w (litIdx l) i := by
        intro i hi
        simp only [flipAt]
        split
        · rw [hag (litIdx l) hl3]
        · exact hag i hi
      exact ih (flipAt v (litIdx l)) (flipAt w (litIdx l))
        (xor a (!(w (litIdx l)))) hrest hag2

theorem hval_congr (c : List ℤ) (hidx : ∀ l ∈ c, litIdx l < 3) (v : ℕ → Bool) :
    hval c v = hval c (tf (v 0) (v 1) (v 2)) := by
  have h := litRun_congr c v (tf (v 0) (v 1) (v 2)) false hidx (tf_agree v)
  simp only [hval, blockVal]
  rw [h.1, h.2 0 (by omega), h.2 1 (by omega), h.2 2 (by omega)]

theorem litVal_congr (l : ℤ) (hl : litIdx l < 3) (v : ℕ → Bool) :
    litVal v l = litVal (tf (v 0) (v 1) (v 2)) l := by
  simp only [litVal]
  split <;> rw [tf_agree v (litIdx l) hl]

theorem gclause_congr (a b d : ℤ) (ha : litIdx a < 3) (hb : litIdx b < 3)
    (hd : litIdx d < 3) (v : ℕ → Bool) :
    gclause [a, b, d] v = gclause [a, b, d] (tf (v 0) (v 1) (v 2)) := by
  simp only [gclause]
  rw [litVal_congr a ha, litVal_congr b hb, litVal_congr d hd]

theorem hval_gclause_tf : ∀ a ∈ lits6, ∀ b ∈ lits6, ∀ d ∈ lits6,
    (([a, b, d] : List ℤ).map Int.natAbs).Nodup →
    ∀ u v w : Bool, hval [a, b, d] (tf u v w) = gclause [a, b, d] (tf u v w) := by
  decide

theorem hval_eq_gclause {c : List ℤ} (hc : ValidClause c) (v : ℕ → Bool) :
    hval c v = gclause c v := by
  obtain ⟨hlen, hmem, hnd⟩ := hc
  match c, hlen with
  | [a, b, d], _ =>
    have ha := hmem a (by simp)
    have hb := hmem b (by simp)
    have hd := hmem d (by simp)
    rw [hval_congr [a, b, d] (fun l hl => lits6_idx l (hmem l hl)) v,
      gclause_congr a b d (lits6_idx a ha) (lits6_idx b hb) (lits6_idx d hd) v]
    exact hval_gclause_tf a ha b hb d hd hnd (v 0) (v 1) (v 2)

end QN

namespace QN

theorem rangeAll_congr : ∀ (n : ℕ) (f g : ℕ → Bool), (∀ k, k < n → f k = g k) →
    (List.range n).all f = (List.range n).all g := by
  intro n
  induction n with
  | zero => intro f g _; rfl
  | succ n ih =>
    intro f g h
    rw [List.range_succ, List.all_append, List.all_append,
      ih f g (fun k hk => h k (by omega))]
    simp [h n (by omega)]

theorem all_range_getD : ∀ (e : List (List ℤ)) (f : List ℤ → Bool),
    (List.range e.length).all (fun k => f (e.getD k [])) = e.all f := by
  intro e f
  induction e with
  | nil => rfl
  | cons c rest ih =>
    rw [List.length_cons, List.range_succ_eq_map, List.all_cons, List.all_map, List.all_cons]
    have h2 : ((List.range rest.length).all
        fun k => (fun j => f ((c :: rest).getD j [])) (Nat.succ k)) =
        (List.range rest.length).all fun k => f (rest.getD k []) := by
      apply rangeAll_congr
      intro k _
      rfl
    rw [show ((fun j => f ((c :: rest).getD j [])) ∘ Nat.succ) =
      fun k => (fun j => f ((c :: rest).getD j [])) (Nat.succ k) from rfl, h2, ih,
      List.getD_cons_zero]

theorem run_combine (nc : ℕ) (comb : List (Gate Q)) (hcomb : combineGates nc = .ok comb)
    (t : Q → Bool) (h3 : t (Q.aux nc) = false) :
    ∀ q, run comb t q =
      if q = Q.fout 0
      then xor (t (Q.fout 0)) ((List.range nc).all (fun k => t (Q.aux k)))
      else t q := by
  by_cases h1 : nc = 1
  · subst h1
    simp [combineGates] at hcomb
    subst hcomb
    intro q
    by_cases hq : q = Q.fout 0
    · subst hq
      simp [run, applyGate, upd, List.range_succ]
    · simp [run, applyGate, upd, hq]
  · by_cases h2 : nc = 2
    · subst h2
      simp [combineGates] at hcomb
      subst hcomb
      intro q
      by_cases hq : q = Q.fout 0
      · subst hq
        simp [run, applyGate, upd, List.range_succ]
      · simp [run, applyGate, upd, hq]
    · by_cases h4 : nc = 3
      · subst h4
        simp [combineGates] at hcomb
        subst hcomb
        intro q
        by_cases hq : q = Q.fout 0
        · subst hq
          simp [run, applyGate, upd, List.range_succ, h3]
          cases t (Q.aux 0) <;> cases t (Q.aux 1) <;> cases t (Q.aux 2) <;> rfl
        · by_cases hq3 : q = Q.aux 3
          · subst hq3
            simp [run, applyGate, upd, h3]
          · simp [run, applyGate, upd, hq, hq3]
      · exfalso
        simp [combineGates, h1, h2, h4] at hcomb

end QN

namespace QN

theorem oracle_sem (e : List (List ℤ)) (h1 : 1 ≤ e.length) (h3 : e.length ≤ 3)
    (hz : ∀ c ∈ e, ∀ l ∈ c, l ≠ 0)
    (s : Q → Bool) (hauxz : ∀ j, s (Q.aux j) = false) :
    ∃ gs, apply_oracle e = Except.ok gs ∧
      (∀ q, q ≠ Q.fout 0 → run gs s q = s q) ∧
      run gs s (Q.fout 0) =
        xor (s (Q.fout 0)) (e.all (fun c => hval c (fun i => s (Q.fin i)))) := by
  obtain ⟨comb, hcomb⟩ : ∃ comb, combineGates e.length = .ok comb := by
    have hcases : e.length = 1 ∨ e.length = 2 ∨ e.length = 3 := by omega
    rcases hcases with h | h | h <;> rw [h] <;> exact ⟨_, rfl⟩
  have hora : apply_oracle e =
      .ok (loopFrom e.length 0 e ++ comb ++ [Gate.barrier] ++ loopFrom e.length 0 e) := by
    simp only [apply_oracle]
    rw [hcomb]
    rfl
  have hs1 := run_loopFrom e.length e 0 s (by omega) (hauxz e.length) hz
  have hs1fin : ∀ i, run (loopFrom e.length 0 e) s (Q.fin i) = s (Q.fin i) :=
    fun i => hs1 (Q.fin i)
  have hs1fout : ∀ i, run (loopFrom e.length 0 e) s (Q.fout i) = s (Q.fout i) :=
    fun i => hs1 (Q.fout i)
  have hs1aux_lt : ∀ j, j < e.length →
      run (loopFrom e.length 0 e) s (Q.aux j) = hval (e.getD j []) (fun i => s (Q.fin i)) := by
    intro j hj
    have h := hs1 (Q.aux j)
    rw [show (match Q.aux j with
      | Q.aux j => if 0 ≤ j ∧ j < 0 + e.length
          then xor (s (Q.aux j)) (hval (e.getD (j - 0) []) (fun i => s (Q.fin i)))
          else s (Q.aux j)
      | q => s q) = if 0 ≤ j ∧ j < 0 + e.length
          then xor (s (Q.aux j)) (hval (e.getD (j - 0) []) (fun i => s (Q.fin i)))
          else s (Q.aux j) from rfl] at h
    rw [h, if_pos (by omega : 0 ≤ j ∧ j < 0 + e.length), hauxz j, Nat.sub_zero,
      Bool.false_xor]
  have hs1aux_ge : ∀ j, e.length ≤ j →
      run (loopFrom e.length 0 e) s (Q.aux j) = s (Q.aux j) := by
    intro j hj
    have h := hs1 (Q.aux j)
    rw [show (match Q.aux j with
      | Q.aux j => if 0 ≤ j ∧ j < 0 + e.length
          then xor (s (Q.aux j)) (hval (e.getD (j - 0) []) (fun i => s (Q.fin i)))
          else s (Q.aux j)
      | q => s q) = if 0 ≤ j ∧ j < 0 + e.length
          then xor (s (Q.aux j)) (hval (e.getD (j - 0) []) (fun i => s (Q.fin i)))
          else s (Q.aux j) from rfl] at h
    rw [h, if_neg (by omega : ¬(0 ≤ j ∧ j < 0 + e.length))]
  have hnc0 : run (loopFrom e.length 0 e) s (Q.aux e.length) = false := by
    rw [hs1aux_ge e.length (le_refl _), hauxz]
  have hs2 := run_combine e.length comb hcomb (run (loopFrom e.length 0 e) s) hnc0
  have hall : ((List.range e.length).all
        fun k => run (loopFrom e.length 0 e) s (Q.aux k)) =
      e.all (fun c => hval c (fun i => s (Q.fin i))) := by
    rw [rangeAll_congr e.length _ (fun k => hval (e.getD k []) (fun i => s (Q.fin i)))
      (fun k hk => hs1aux_lt k hk)]
    exact all_range_getD e (fun c => hval c (fun i => s (Q.fin i)))
  have hs2aux : ∀ j, run comb (run (loopFrom e.length 0 e) s) (Q.aux j)
      = run (loopFrom e.length 0 e) s (Q.aux j) :=
    fun j => by rw [hs2 (Q.aux j), if_neg (by simp)]
  have hs2fin : ∀ i, run comb (run (loopFrom e.length 0 e) s) (Q.fin i) = s (Q.fin i) :=
    fun i => by rw [hs2 (Q.fin i), if_neg (by simp), hs1fin]
  have hs2fout0 : run comb (run (loopFrom e.length 0 e) s) (Q.fout 0)
      = xor (s (Q.fout 0)) (e.all (fun c => hval c (fun i => s (Q.fin i)))) := by
    rw [hs2 (Q.fout 0), if_pos rfl, hs1fout 0, hall]
  have hs2fouti : ∀ i, i ≠ 0 →
      run comb (run (loopFrom e.length 0 e) s) (Q.fout i) = s (Q.fout i) :=
    fun i hi => by rw [hs2 (Q.fout i), if_neg (by simp [hi]), hs1fout]
  have hs2finfun : (fun i => run comb (run (loopFrom e.length 0 e) s) (Q.fin i))
      = fun i => s (Q.fin i) := funext hs2fin
  have hbar : run [Gate.barrier] (run comb (run (loopFrom e.length 0 e) s))
      = run comb (run (loopFrom e.length 0 e) s) := rfl
  have hs4 := run_loopFrom e.length e 0 (run comb (run (loopFrom e.length 0 e) s))
    (by omega) (by rw [hs2aux, hnc0]) hz
  refine ⟨_, hora, ?_, ?_⟩
  · intro q hq
    rw [run_append, run_append, run_append, hbar]
    cases q with
    | fin i =>
      rw [hs4 (Q.fin i)]
      exact hs2fin i
    | fout i =>
      have hi : i ≠ 0 := fun h => hq (by rw [h])
      rw [hs4 (Q.fout i)]
      exact hs2fouti i hi
    | aux j =>
      have h := hs4 (Q.aux j)
      rw [show (match Q.aux j with
        | Q.aux j => if 0 ≤ j ∧ j < 0 + e.length
            then xor (run comb (run (loopFrom e.length 0 e) s) (Q.aux j))
              (hval (e.getD (j - 0) [])
                (fun i => run comb (run (loopFrom e.length 0 e) s) (Q.fin i)))
            else run comb (run (loopFrom e.length 0 e) s) (Q.aux j)
        | q => run comb (run (loopFrom e.length 0 e) s) q)
        = if 0 ≤ j ∧ j < 0 + e.length
            then xor (run comb (run (loopFrom e.length 0 e) s) (Q.aux j))
              (hval (e.getD (j - 0) [])
                (fun i => run comb (run (loopFrom e.length 0 e) s) (Q.fin i)))
            else run comb (run (loopFrom e.length 0 e) s) (Q.aux j) from rfl] at h
      rw [h]
      by_cases hj : j < e.length
      · rw [if_pos (by omega : 0 ≤ j ∧ j < 0 + e.length), hs2finfun, Nat.sub_zero,
          hs2aux j, hs1aux_lt j hj, hauxz j, Bool.xor_self]
      · rw [if_neg (by omega : ¬(0 ≤ j ∧ j < 0 + e.length)), hs2aux j,
          hs1aux_ge j (by omega)]
  · rw [run_append, run_append, run_append, hbar, hs4 (Q.fout 0)]
    exact hs2fout0

end QN

namespace QN

theorem upd_self {α : Type} [DecidableEq α] (q : α) (b : Bool) (s : α → Bool) :
    upd q b s q = b := by
  simp [upd]

theorem listAll_congr {α : Type} : ∀ (l : List α) (f g : α → Bool),
    (∀ x ∈ l, f x = g x) → l.all f = l.all g := by
  intro l f g h
  induction l with
  | nil => rfl
  | cons x l ih =>
    rw [List.all_cons, List.all_cons, h x (by simp),
      ih (fun y hy => h y (by simp [hy]))]

/-- The basis state with `x0 = 1` and every other qubit `0`. -/
def exState1 : Q → Bool := fun q => decide (q = Q.fin 0)

/-- C1 counterexample: for the expression `[[1, 1, 1]]` (three copies of the
literal `x0`, a 3-element list of signed literals over `x0..x2`) and the
basis input `x = (1, 0, 0)` with `f_out` and `aux` zero, `apply_oracle`
flips `f_out[0]` although the transformed expression
`Eprime = x0 XOR x0 XOR x0 XOR (x0 AND x0 AND x0)` is false there. -/
theorem claim1_counterexample :
    run (okGates (apply_oracle [[1, 1, 1]])) exState1 (Q.fout 0) = true ∧
    Especk [[1, 1, 1]] (fun i => exState1 (Q.fin i)) = false ∧
    exState1 (Q.fout 0) = false ∧ (∀ j, j ≤ 4 → exState1 (Q.aux j) = false) := by
  refine ⟨by decide, by decide, rfl, ?_⟩
  intro j _
  rfl

/-- C1 (amended): for expressions of 1 to 3 clauses whose clauses are
3-element lists of signed literals over `x0`, `x1`, `x2` naming three
DISTINCT variables, `apply_oracle` succeeds and, on every computational
basis input with `f_out` and the `aux` qubits initially 0, it sets
`f_out[0]` to the transformed 1-in-3-SAT expression
`Eprime = AND_j (l1 XOR l2 XOR l3 XOR (l1 AND l2 AND l3))` and returns
every `f_in` and `aux` qubit to its initial value. -/
theorem claim1_amended (e : List (List ℤ)) (h1 : 1 ≤ e.length) (h3 : e.length ≤ 3)
    (hv : ∀ c ∈ e, ValidClause c) (s : Q → Bool)
    (hauxz : ∀ j, s (Q.aux j) = false) (hfout : s (Q.fout 0) = false) :
    ∃ gs, apply_oracle e = Except.ok gs ∧
      run gs s (Q.fout 0) = Especk e (fun i => s (Q.fin i)) ∧
      (∀ i, run gs s (Q.fin i) = s (Q.fin i)) ∧
      (∀ j, run gs s (Q.aux j) = s (Q.aux j)) := by
  obtain ⟨gs, hgs, hframe, hfout0⟩ :=
    oracle_sem e h1 h3 (fun c hc => validClause_nonzero (hv c hc)) s hauxz
  refine ⟨gs, hgs, ?_, fun i => hframe (Q.fin i) (by simp),
    fun j => hframe (Q.aux j) (by simp)⟩
  rw [hfout0, hfout, Bool.false_xor]
  exact listAll_congr e _ _ (fun c hc => hval_eq_gclause (hv c hc) _)

/-- Witness for C1 (amended) at the notebook's own example clause
`[[1, 2, -3]]` and the basis input `x = (1, 0, 0)`. -/
theorem claim1_amended_witness :
    ∃ gs, apply_oracle [[1, 2, -3]] = Except.ok gs ∧
      run gs exState1 (Q.fout 0) = Especk [[1, 2, -3]] (fun i => exState1 (Q.fin i)) ∧
      (∀ i, run gs exState1 (Q.fin i) = exState1 (Q.fin i)) ∧
      (∀ j, run gs exState1 (Q.aux j) = exState1 (Q.aux j)) :=
  claim1_amended [[1, 2, -3]] (by decide) (by decide) (by decide) exState1
    (fun j => rfl) rfl

theorem apply_oracle_eq (e : List (List ℤ)) :
    apply_oracle e = (combineGates e.length).map
      (fun comb => loopFrom e.length 0 e ++ comb ++ [Gate.barrier] ++ loopFrom e.length 0 e) := by
  cases h : combineGates e.length <;> simp [apply_oracle, h, Except.map]

/-- C3 counterexample: the empty expression has 0 (not more than 3) clauses,
yet `apply_oracle` raises `ValueError` on it, because zero clauses fall
through every branch of the `if/elif` ladder into the `else: raise`. -/
theorem claim3_counterexample :
    apply_oracle [] = Except.error (PyErr.valueError "We only allow at most 3 clauses") ∧
    ¬ 3 < ([] : List (List ℤ)).length := by
  exact ⟨rfl, by decide⟩

/-- C3 (amended): `apply_oracle` raises
`ValueError('We only allow at most 3 clauses')` exactly when the clause
count is 0 or more than 3; for every expression of 1, 2 or 3 clauses it
completes without raising. -/
theorem claim3_amended (e : List (List ℤ)) :
    ((∃ gs, apply_oracle e = Except.ok gs) ↔ 1 ≤ e.length ∧ e.length ≤ 3) ∧
    (e.length = 0 ∨ 3 < e.length →
      apply_oracle e = Except.error (PyErr.valueError "We only allow at most 3 clauses")) := by
  have hsplit : e.length = 0 ∨ e.length = 1 ∨ e.length = 2 ∨ e.length = 3 ∨ 3 < e.length := by
    omega
  rw [apply_oracle_eq]
  rcases hsplit with h | h | h | h | h
  · rw [show combineGates e.length =
        .error (PyErr.valueError "We only allow at most 3 clauses") by rw [h]; rfl]
    constructor
    · simp [Except.map]
      omega
    · intro _
      rfl
  · rw [show combineGates e.length = .ok [Gate.cx (Q.aux 0) (Q.fout 0)] by rw [h]; rfl]
    constructor
    · simp [Except.map]
      omega
    · intro hcontra
      omega
  · rw [show combineGates e.length = .ok [Gate.ccx (Q.aux 0) (Q.aux 1) (Q.fout 0)] by
      rw [h]; rfl]
    constructor
    · simp [Except.map]
      omega
    · intro hcontra
      omega
  · rw [show combineGates e.length = .ok [Gate.ccx (Q.aux 0) (Q.aux 1) (Q.aux e.length),
        Gate.ccx (Q.aux 2) (Q.aux e.length) (Q.fout 0),
        Gate.ccx (Q.aux 0) (Q.aux 1) (Q.aux e.length)] by
      rw [h]; rfl]
    constructor
    · simp [Except.map]
      omega
    · intro hcontra
      omega
  · have h1 : e.length ≠ 1 := by omega
    have h2 : e.length ≠ 2 := by omega
    have h4 : e.length ≠ 3 := by omega
    rw [show combineGates e.length =
        .error (PyErr.valueError "We only allow at most 3 clauses") by
      simp [combineGates, h1, h2, h4]]
    constructor
    · simp [Except.map]
      omega
    · intro _
      rfl

end QN

namespace QN

theorem hval_ne_gclause_tf : ∀ a ∈ lits6, ∀ b ∈ lits6, ∀ d ∈ lits6,
    ¬ (([a, b, d] : List ℤ).map Int.natAbs).Perm [1, 2, 3] →
    ∃ u v w : Bool, hval [a, b, d] (tf u v w) ≠ gclause [a, b, d] (tf u v w) := by
  decide

/-- C8: the AND term of every clause block is produced by the fixed gate
pair `ccx(f_in[0], f_in[1], aux[nc]); ccx(f_in[2], aux[nc], aux[k])`
regardless of which variables the clause's literals name, and consequently
`aux[k]` holds the textbook clause value `g_k` only when the clause's
literals have absolute values exactly `{1, 2, 3}`: for any clause over
`x0..x2` whose absolute values are NOT a permutation of `{1, 2, 3}` there
is a basis state on which the block's effect on `aux[k]` differs from
XOR-ing in `g_k`. -/
theorem claim8_fixed_gate_pair :
    (∀ (nc k : Nat) (c : List ℤ), clauseBlock nc k c =
      litLoop k c ++
      [Gate.barrier, Gate.ccx (Q.fin 0) (Q.fin 1) (Q.aux nc),
       Gate.ccx (Q.fin 2) (Q.aux nc) (Q.aux k), Gate.barrier,
       Gate.ccx (Q.fin 0) (Q.fin 1) (Q.aux nc)] ++ negTail c ++ [Gate.barrier]) ∧
    (∀ (nc k : Nat), k ≠ nc → ∀ a ∈ lits6, ∀ b ∈ lits6, ∀ d ∈ lits6,
      ¬ (([a, b, d] : List ℤ).map Int.natAbs).Perm [1, 2, 3] →
      ∃ s : Q → Bool, s (Q.aux nc) = false ∧
        run (clauseBlock nc k [a, b, d]) s (Q.aux k) ≠
          xor (s (Q.aux k)) (gclause [a, b, d] (fun i => s (Q.fin i)))) := by
  refine ⟨fun nc k c => rfl, ?_⟩
  intro nc k hk a ha b hb d hd hperm
  obtain ⟨u, v, w, hne⟩ := hval_ne_gclause_tf a ha b hb d hd hperm
  refine ⟨fun q => match q with | Q.fin i => tf u v w i | _ => false, rfl, ?_⟩
  have hz : ∀ l ∈ ([a, b, d] : List ℤ), l ≠ 0 := by
    intro l hl
    simp only [List.mem_cons, List.not_mem_nil, or_false] at hl
    rcases hl with rfl | rfl | rfl
    exacts [lits6_nonzero _ ha, lits6_nonzero _ hb, lits6_nonzero _ hd]
  rw [run_clauseBlock nc k [a, b, d] _ hk hz, upd_self]
  show hval [a, b, d] (tf u v w) ≠ xor false (gclause [a, b, d] (tf u v w))
  simpa using hne

/-- Witness for C8's necessity part at the degenerate clause `[1, 1, 1]`
(with `num_clauses = 3`, `k = 0`). -/
theorem claim8_witness :
    ∃ s : Q → Bool, s (Q.aux 3) = false ∧
      run (clauseBlock 3 0 [1, 1, 1]) s (Q.aux 0) ≠
        xor (s (Q.aux 0)) (gclause [1, 1, 1] (fun i => s (Q.fin i))) :=
  claim8_fixed_gate_pair.2 3 0 (by decide) 1 (by decide) 1 (by decide) 1 (by decide)
    (by decide)

end QN

namespace QN

/-! ## The ladder-of-ancillas `CnX` helper

`CnX(circ, ctrls, target, clean_aux)` recursively decomposes an
n-controlled NOT into `ccx` gates.  The Python code mutates its `ctrls`
and `clean_aux` list arguments (`pop`/`append`); the embedding passes that
state explicitly and returns, besides the appended gates, the final
contents of the caller's `ctrls` list and of the caller's `clean_aux`
list (the latter unchanged when the wrong-size fallback replaced it by a
freshly created register). -/

/-- A qubit of a `CnX` circuit: `reg i` is a qubit supplied by the caller,
`auto i` a qubit of the `QuantumRegister(len(ctrls)-2, 'aux')` that the
fallback branch creates. -/
inductive XQb where
  | reg (i : Nat)
  | auto (i : Nat)
  deriving DecidableEq, Repr

/-- Placeholder for the (unreachable) default of `getLastD`. -/
def xdflt : XQb := XQb.reg 0

/-- `CnX`: `assert len(ctrls) >= 1` (an empty list raises
`AssertionError`); one control appends a `cx`, two controls a `ccx`; with
three or more controls, `clean_aux is None` raises `TypeError` (the
warning message calls `len(None)`), a wrongly sized list is replaced by a
freshly created ancilla register, then the code pops the last two
controls `a`, `b` and the last ancilla `y`, appends `ccx(a, b, y)`,
recurses on the remaining controls plus `y`, and appends `ccx(a, b, y)`
again. -/
def CnX (ctrls : List XQb) (target : XQb) (cleanAux : Option (List XQb)) :
    Except PyErr (List (Gate XQb) × List XQb × Option (List XQb)) :=
  if _h0 : ctrls.length = 0 then .error .assertionError
  else if _h1 : ctrls.length = 1 then
    .ok ([Gate.cx (ctrls.getD 0 xdflt) target], ctrls, cleanAux)
  else if _h2 : ctrls.length = 2 then
    .ok ([Gate.ccx (ctrls.getD 0 xdflt) (ctrls.getD 1 xdflt) target], ctrls, cleanAux)
  else
    match cleanAux with
    | none => .error .typeError
    | some auxl =>
      let auxUse := if auxl.length = ctrls.length - 2 then auxl
        else (List.range (ctrls.length - 2)).map XQb.auto
      let a := ctrls.getLastD xdflt
      let b := ctrls.dropLast.getLastD xdflt
      let y := auxUse.getLastD xdflt
      match CnX (ctrls.dropLast.dropLast ++ [y]) target (some auxUse.dropLast) with
      | .error e => .error e
      | .ok (gs, cF, aF) =>
          .ok (Gate.ccx a b y :: (gs ++ [Gate.ccx a b y]), cF,
            if auxl.length = ctrls.length - 2 then aF else some auxl)
termination_by ctrls.length
decreasing_by
  simp only [List.length_append, List.length_dropLast, List.length_cons, List.length_nil]
  omega

theorem dropLast_append_getLastD {α : Type} (l : List α) (d : α) (h : l ≠ []) :
    l.dropLast ++ [l.getLastD d] = l := by
  rw [List.getLastD_eq_getLast?, List.getLast?_eq_getLast l h, Option.getD_some]
  exact List.dropLast_append_getLast h

/-- C9: with more than two controls and `clean_aux=None`, `CnX` raises
`TypeError` (from `len(None)` inside the warning-message formatting)
before the automatic-ancilla fallback can run, so no gates are appended
and no ancilla register is created. -/
theorem claim9_none_aux_typeerror (ctrls : List XQb) (target : XQb)
    (h3 : 3 ≤ ctrls.length) :
    CnX ctrls target none = Except.error PyErr.typeError := by
  rw [CnX]
  rw [dif_neg (by omega : ¬ctrls.length = 0), dif_neg (by omega : ¬ctrls.length = 1),
    dif_neg (by omega : ¬ctrls.length = 2)]

/-- Witness for C9 at three concrete controls. -/
theorem claim9_witness :
    CnX [XQb.reg 0, XQb.reg 1, XQb.reg 2] (XQb.reg 3) none = Except.error PyErr.typeError :=
  claim9_none_aux_typeerror [XQb.reg 0, XQb.reg 1, XQb.reg 2] (XQb.reg 3) (by decide)

end QN

namespace QN

/-- Is a gate a singly- or doubly-controlled X? -/
def isCxCcx {α : Type} : Gate α → Bool
  | .cx _ _ => true
  | .ccx _ _ _ => true
  | _ => false

theorem mem_getLastD {α : Type} (l : List α) (d : α) (h : l ≠ []) : l.getLastD d ∈ l := by
  rw [List.getLastD_eq_getLast?, List.getLast?_eq_getLast l h, Option.getD_some]
  exact List.getLast_mem h

theorem headD_append_of_ne_nil {α : Type} (l₁ l₂ : List α) (d : α) (h : l₁ ≠ []) :
    (l₁ ++ l₂).headD d = l₁.headD d := by
  cases l₁ with
  | nil => exact absurd rfl h
  | cons x t => rfl

theorem headD_dropLast {α : Type} (l : List α) (d : α) (h : 2 ≤ l.length) :
    l.dropLast.headD d = l.headD d := by
  cases l with
  | nil => simp at h
  | cons x t =>
    cases t with
    | nil => simp at h
    | cons y t2 => rfl

theorem run_single_cx {α : Type} [DecidableEq α] (c t : α) (s : α → Bool) :
    ∀ q, run [Gate.cx c t] s q = if q = t then xor (s t) (s c) else s q := by
  intro q
  simp [run, applyGate, upd]

theorem run_single_ccx {α : Type} [DecidableEq α] (a b t : α) (s : α → Bool) :
    ∀ q, run [Gate.ccx a b t] s q = if q = t then xor (s t) (s a && s b) else s q := by
  intro q
  simp [run, applyGate, upd]

theorem CnX_main : ∀ (n : ℕ) (ctrls : List XQb) (target : XQb) (auxl : List XQb),
    ctrls.length = n → 1 ≤ n → (3 ≤ n → auxl.length = n - 2) →
    ∃ gs : List (Gate XQb),
      CnX ctrls target (some auxl) = .ok (gs,
        (if 3 ≤ n then [ctrls.headD xdflt, auxl.headD xdflt] else ctrls),
        (if 3 ≤ n then some [] else some auxl)) ∧
      gs ≠ [] ∧ (∀ g ∈ gs, isCxCcx g = true) ∧
      ((ctrls ++ auxl ++ [target]).Nodup →
        ∀ s : XQb → Bool, (∀ q ∈ auxl, s q = false) →
          run gs s target = xor (s target) (ctrls.all (fun c => s c)) ∧
          ∀ q, q ≠ target → run gs s q = s q) := by
  intro n
  induction n using Nat.strong_induction_on with
  | _ n ih =>
    intro ctrls target auxl hlen h1 hlen3
    by_cases hn3 : 3 ≤ n
    · -- the recursive ladder step (3 or more controls)
      have hlaux : auxl.length = n - 2 := hlen3 hn3
      have hcne : ctrls ≠ [] := by
        intro h
        rw [h] at hlen
        simp at hlen
        omega
      have hdne : ctrls.dropLast ≠ [] := by
        intro h
        have h2 := congrArg List.length h
        simp only [List.length_dropLast, hlen, List.length_nil] at h2
        omega
      have hane : auxl ≠ [] := by
        intro h
        rw [h] at hlaux
        simp at hlaux
        omega
      have hC2len : ctrls.dropLast.dropLast.length = n - 2 := by
        simp only [List.length_dropLast, hlen]
        omega
      have hsplitc : ctrls.dropLast.dropLast ++
          [ctrls.dropLast.getLastD xdflt, ctrls.getLastD xdflt] = ctrls := by
        calc ctrls.dropLast.dropLast ++
              [ctrls.dropLast.getLastD xdflt, ctrls.getLastD xdflt]
            = (ctrls.dropLast.dropLast ++ [ctrls.dropLast.getLastD xdflt]) ++
              [ctrls.getLastD xdflt] := by simp
          _ = ctrls.dropLast ++ [ctrls.getLastD xdflt] := by
              rw [dropLast_append_getLastD ctrls.dropLast xdflt hdne]
          _ = ctrls := dropLast_append_getLastD ctrls xdflt hcne
      have hsplita : auxl.dropLast ++ [auxl.getLastD xdflt] = auxl :=
        dropLast_append_getLastD auxl xdflt hane
      have hunf : CnX ctrls target (some auxl) =
          match CnX (ctrls.dropLast.dropLast ++ [auxl.getLastD xdflt]) target
              (some auxl.dropLast) with
          | .error e => .error e
          | .ok (gs, cF, aF) =>
              .ok (Gate.ccx (ctrls.getLastD xdflt) (ctrls.dropLast.getLastD xdflt)
                  (auxl.getLastD xdflt) :: (gs ++ [Gate.ccx (ctrls.getLastD xdflt)
                  (ctrls.dropLast.getLastD xdflt) (auxl.getLastD xdflt)]), cF, aF) := by
        rw [CnX]
        rw [dif_neg (by omega : ¬ctrls.length = 0), dif_neg (by omega : ¬ctrls.length = 1),
          dif_neg (by omega : ¬ctrls.length = 2)]
        rw [show auxl.length = ctrls.length - 2 by omega]
        simp only [eq_self_iff_true, if_true]
      have hrec := ih (n - 1) (by omega)
        (ctrls.dropLast.dropLast ++ [auxl.getLastD xdflt]) target auxl.dropLast
        (by simp only [List.length_append, hC2len, List.length_cons, List.length_nil]; omega)
        (by omega)
        (by intro _; simp only [List.length_dropLast, hlaux]; omega)
      obtain ⟨gsI, hokI, hgsneI, hkindI, hsemI⟩ := hrec
      refine ⟨Gate.ccx (ctrls.getLastD xdflt) (ctrls.dropLast.getLastD xdflt)
          (auxl.getLastD xdflt) :: (gsI ++ [Gate.ccx (ctrls.getLastD xdflt)
          (ctrls.dropLast.getLastD xdflt) (auxl.getLastD xdflt)]), ?_, by simp, ?_, ?_⟩
      · -- the CnX equation
        rw [hunf, hokI]
        rw [if_pos hn3, if_pos hn3]
        by_cases hn4 : 3 ≤ n - 1
        · rw [if_pos hn4, if_pos hn4]
          have hh1 : (ctrls.dropLast.dropLast ++ [auxl.getLastD xdflt]).headD xdflt
              = ctrls.headD xdflt := by
            rw [headD_append_of_ne_nil _ _ _ (by
              intro h
              have h2 := congrArg List.length h
              simp only [hC2len, List.length_nil] at h2
              omega)]
            rw [headD_dropLast ctrls.dropLast xdflt (by
                simp only [List.length_dropLast, hlen]; omega),
              headD_dropLast ctrls xdflt (by omega)]
          have hh2 : auxl.dropLast.headD xdflt = auxl.headD xdflt :=
            headD_dropLast auxl xdflt (by omega)
          rw [hh1, hh2]
        · rw [if_neg hn4, if_neg hn4]
          have hc2one : ctrls.dropLast.dropLast.length = 1 := by omega
          have haone : auxl.length = 1 := by omega
          have hc2eq : ctrls.dropLast.dropLast = [ctrls.headD xdflt] := by
            have hh : ctrls.dropLast.dropLast.headD xdflt = ctrls.headD xdflt := by
              rw [headD_dropLast ctrls.dropLast xdflt (by
                  simp only [List.length_dropLast, hlen]; omega),
                headD_dropLast ctrls xdflt (by omega)]
            obtain ⟨u, hu⟩ : ∃ u, ctrls.dropLast.dropLast = [u] :=
              match hl2 : ctrls.dropLast.dropLast, hc2one with
              | [u], _ => ⟨u, rfl⟩
            rw [hu] at hh ⊢
            simp only [List.headD_cons] at hh
            rw [hh]
          have haeq : auxl = [auxl.headD xdflt] := by
            obtain ⟨u, hu⟩ : ∃ u, auxl = [u] :=
              match hl2 : auxl, haone with
              | [u], _ => ⟨u, rfl⟩
            rw [hu]
            rfl
          have hgy : auxl.getLastD xdflt = auxl.headD xdflt := by
            conv_lhs => rw [haeq]
            rw [List.getLastD_cons, List.getLastD_nil]
          have hgd : auxl.dropLast = [] := by
            conv_lhs => rw [haeq]
            rfl
          rw [hc2eq, hgy, hgd]
          rfl
      · -- only cx and ccx gates
        intro g hg
        simp only [List.mem_cons, List.mem_append, List.mem_singleton,
          List.not_mem_nil, or_false] at hg
        rcases hg with rfl | hg | rfl
        · rfl
        · exact hkindI g hg
        · rfl
      · -- semantics
        intro hnd s hclean
        have hnd0 := hnd
        rw [List.nodup_append] at hnd
        obtain ⟨hndca, _, hdisjt⟩ := hnd
        rw [List.nodup_append] at hndca
        obtain ⟨hndc, hnda, hdisj⟩ := hndca
        have hamem : ctrls.getLastD xdflt ∈ ctrls := mem_getLastD ctrls xdflt hcne
        have hbmem : ctrls.dropLast.getLastD xdflt ∈ ctrls :=
          (List.dropLast_sublist ctrls).subset (mem_getLastD ctrls.dropLast xdflt hdne)
        have hymem : auxl.getLastD xdflt ∈ auxl := mem_getLastD auxl xdflt hane
        have hy_target : auxl.getLastD xdflt ≠ target := by
          intro h
          exact hdisjt (List.mem_append_right _ hymem) (by rw [h]; simp)
        have ha_ne_y : ctrls.getLastD xdflt ≠ auxl.getLastD xdflt := by
          intro h
          exact hdisj hamem (by rw [h]; exact hymem)
        have hb_ne_y : ctrls.dropLast.getLastD xdflt ≠ auxl.getLastD xdflt := by
          intro h
          exact hdisj hbmem (by rw [h]; exact hymem)
        have ha_ne_target : ctrls.getLastD xdflt ≠ target := by
          intro h
          exact hdisjt (List.mem_append_left _ hamem) (by rw [h]; simp)
        have hb_ne_target : ctrls.dropLast.getLastD xdflt ≠ target := by
          intro h
          exact hdisjt (List.mem_append_left _ hbmem) (by rw [h]; simp)
        have hy_notin_dropLast : auxl.getLastD xdflt ∉ auxl.dropLast := by
          have h2 := hnda
          rw [← hsplita, List.nodup_append] at h2
          exact fun hmem => h2.2.2 hmem (by simp)
        have hC2sub : ∀ q ∈ ctrls.dropLast.dropLast, q ∈ ctrls :=
          fun q hq => (List.dropLast_sublist ctrls).subset
            ((List.dropLast_sublist ctrls.dropLast).subset hq)
        have hC2_ne_y : ∀ q ∈ ctrls.dropLast.dropLast, q ≠ auxl.getLastD xdflt := by
          intro q hq h
          exact hdisj (hC2sub q hq) (by rw [h]; exact hymem)
        set s1 : XQb → Bool := fun q => if q = auxl.getLastD xdflt
          then (s (ctrls.getLastD xdflt) && s (ctrls.dropLast.getLastD xdflt))
          else s q with hs1def
        have happly : applyGate (Gate.ccx (ctrls.getLastD xdflt)
            (ctrls.dropLast.getLastD xdflt) (auxl.getLastD xdflt)) s = s1 := by
          funext q
          simp only [applyGate, upd, hs1def]
          split
          · rw [hclean _ hymem, Bool.false_xor]
          · rfl
        have hcleanI : ∀ q ∈ auxl.dropLast, s1 q = false := by
          intro q hq
          have hqy : q ≠ auxl.getLastD xdflt := fun h => hy_notin_dropLast (h ▸ hq)
          rw [hs1def]
          simp only [if_neg hqy]
          exact hclean q ((List.dropLast_sublist auxl).subset hq)
        have hndI : ((ctrls.dropLast.dropLast ++ [auxl.getLastD xdflt]) ++
            auxl.dropLast ++ [target]).Nodup := by
          have hsubc : ctrls.dropLast.dropLast.Sublist ctrls := by
            conv_rhs => rw [← hsplitc]
            exact List.sublist_append_left _ _
          have hndM : ((ctrls.dropLast.dropLast ++ auxl) ++ [target]).Nodup :=
            List.Sublist.nodup
              (List.Sublist.append (List.Sublist.append hsubc (List.Sublist.refl auxl))
                (List.Sublist.refl [target])) hnd0
          have hinner : (ctrls.dropLast.dropLast ++ auxl).Perm
              ((ctrls.dropLast.dropLast ++ [auxl.getLastD xdflt]) ++ auxl.dropLast) := by
            conv_lhs => rw [← hsplita]
            rw [List.append_assoc]
            exact List.Perm.append_left _ List.perm_append_comm
          exact (List.Perm.append_right [target] hinner).nodup hndM
        obtain ⟨hsemT, hsemF⟩ := hsemI hndI s1 hcleanI
        have hs1target : s1 target = s target := by
          rw [hs1def]
          exact if_neg (Ne.symm hy_target)
        have hs1a : s1 (ctrls.getLastD xdflt) = s (ctrls.getLastD xdflt) := by
          rw [hs1def]
          exact if_neg ha_ne_y
        have hs1b : s1 (ctrls.dropLast.getLastD xdflt)
            = s (ctrls.dropLast.getLastD xdflt) := by
          rw [hs1def]
          exact if_neg hb_ne_y
        have hs1y : s1 (auxl.getLastD xdflt) =
            (s (ctrls.getLastD xdflt) && s (ctrls.dropLast.getLastD xdflt)) := by
          rw [hs1def]
          exact if_pos rfl
        have hrun : ∀ q, run (Gate.ccx (ctrls.getLastD xdflt)
            (ctrls.dropLast.getLastD xdflt) (auxl.getLastD xdflt) ::
            (gsI ++ [Gate.ccx (ctrls.getLastD xdflt) (ctrls.dropLast.getLastD xdflt)
              (auxl.getLastD xdflt)])) s q =
            run [Gate.ccx (ctrls.getLastD xdflt) (ctrls.dropLast.getLastD xdflt)
              (auxl.getLastD xdflt)] (run gsI s1) q := by
          intro q
          rw [run_cons, happly, run_append]
        have hrgsIy : run gsI s1 (auxl.getLastD xdflt) = s1 (auxl.getLastD xdflt) :=
          hsemF _ hy_target
        have hrgsIa : run gsI s1 (ctrls.getLastD xdflt) = s1 (ctrls.getLastD xdflt) :=
          hsemF _ ha_ne_target
        have hrgsIb : run gsI s1 (ctrls.dropLast.getLastD xdflt)
            = s1 (ctrls.dropLast.getLastD xdflt) :=
          hsemF _ hb_ne_target
        constructor
        · rw [hrun target, run_single_ccx, if_neg (Ne.symm hy_target), hsemT, hs1target]
          congr 1
          conv_rhs => rw [← hsplitc]
          rw [List.all_append, List.all_append]
          have hallC2 : ctrls.dropLast.dropLast.all s1 = ctrls.dropLast.dropLast.all s :=
            listAll_congr _ _ _ (fun q hq => by
              rw [hs1def]
              exact if_neg (hC2_ne_y q hq))
          rw [hallC2]
          simp only [List.all_cons, List.all_nil, hs1y]
          cases ctrls.dropLast.dropLast.all s <;>
            cases s (ctrls.getLastD xdflt) <;>
            cases s (ctrls.dropLast.getLastD xdflt) <;> rfl
        · intro q hq
          rw [hrun q, run_single_ccx]
          by_cases hqy : q = auxl.getLastD xdflt
          · rw [if_pos hqy, hqy, hrgsIy, hrgsIa, hrgsIb, hs1y, hs1a, hs1b,
              hclean _ hymem]
            cases s (ctrls.getLastD xdflt) <;>
              cases s (ctrls.dropLast.getLastD xdflt) <;> rfl
          · rw [if_neg hqy, hsemF q hq, hs1def]
            exact if_neg hqy
    · rw [if_neg hn3, if_neg hn3]
      by_cases hn1 : n = 1
      · subst hn1
        match ctrls, hlen with
        | [c], _ =>
          refine ⟨[Gate.cx c target], ?_, by simp, ?_, ?_⟩
          · rw [CnX]
            rw [dif_neg (by simp), dif_pos (by simp)]
            rfl
          · intro g hg
            simp only [List.mem_singleton] at hg
            subst hg
            rfl
          · intro _ s _
            constructor
            · rw [run_single_cx c target s target, if_pos rfl]
              simp
            · intro q hq
              rw [run_single_cx c target s q, if_neg hq]
      · have hn2 : n = 2 := by omega
        subst hn2
        match ctrls, hlen with
        | [c1, c2], _ =>
          refine ⟨[Gate.ccx c1 c2 target], ?_, by simp, ?_, ?_⟩
          · rw [CnX]
            rw [dif_neg (by simp), dif_neg (by simp), dif_pos (by simp)]
            rfl
          · intro g hg
            simp only [List.mem_singleton] at hg
            subst hg
            rfl
          · intro _ s _
            constructor
            · rw [run_single_ccx c1 c2 target s target, if_pos rfl]
              simp [Bool.and_assoc]
            · intro q hq
              rw [run_single_ccx c1 c2 target s q, if_neg hq]

end QN

namespace QN

/-- C2: with n >= 1 controls, a clean ancilla list of exactly n-2 qubits
(when n >= 3) and pairwise distinct qubits, `CnX` succeeds, appends only
`cx`/`ccx` gates, flips the target exactly when all controls are 1, and
returns every control and ancilla qubit to its initial value. -/
theorem claim2_CnX_correct (ctrls : List XQb) (target : XQb) (auxl : List XQb)
    (h1 : 1 ≤ ctrls.length) (hlen : 3 ≤ ctrls.length → auxl.length = ctrls.length - 2)
    (hnd : (ctrls ++ auxl ++ [target]).Nodup) :
    ∃ gs cF aF, CnX ctrls target (some auxl) = .ok (gs, cF, aF) ∧
      (∀ g ∈ gs, isCxCcx g = true) ∧
      ∀ s : XQb → Bool, (∀ q ∈ auxl, s q = false) →
        run gs s target = xor (s target) (ctrls.all (fun c => s c)) ∧
        ∀ q, q ≠ target → run gs s q = s q := by
  obtain ⟨gs, hok, _, hkind, hsem⟩ := CnX_main ctrls.length ctrls target auxl rfl h1 hlen
  exact ⟨gs, _, _, hok, hkind, hsem hnd⟩

/-- Witness for C2: a Toffoli-style 3-controlled NOT on distinct qubits. -/
theorem claim2_witness :
    ∃ gs cF aF, CnX [XQb.reg 0, XQb.reg 1, XQb.reg 2] (XQb.reg 3) (some [XQb.reg 4])
        = .ok (gs, cF, aF) ∧
      (∀ g ∈ gs, isCxCcx g = true) ∧
      ∀ s : XQb → Bool, (∀ q ∈ [XQb.reg 4], s q = false) →
        run gs s (XQb.reg 3) = xor (s (XQb.reg 3))
          (([XQb.reg 0, XQb.reg 1, XQb.reg 2]).all (fun c => s c)) ∧
        ∀ q, q ≠ XQb.reg 3 → run gs s q = s q :=
  claim2_CnX_correct [XQb.reg 0, XQb.reg 1, XQb.reg 2] (XQb.reg 3) [XQb.reg 4]
    (by decide) (by decide) (by decide)

/-- C4 counterexample: three controls with a wrongly sized (empty) ancilla
list are NOT rejected: the call prints a warning, creates the ancilla
`auto 0` itself and appends the full decomposition. -/
theorem claim4_counterexample :
    CnX [XQb.reg 0, XQb.reg 1, XQb.reg 2] (XQb.reg 3) (some []) =
      Except.ok ([Gate.ccx (XQb.reg 2) (XQb.reg 1) (XQb.auto 0),
        Gate.ccx (XQb.reg 0) (XQb.auto 0) (XQb.reg 3),
        Gate.ccx (XQb.reg 2) (XQb.reg 1) (XQb.auto 0)],
        [XQb.reg 0, XQb.auto 0], some []) := by
  simp [CnX, List.range_succ]

theorem CnX_fallback_eq (ctrls : List XQb) (target : XQb) (auxl : List XQb)
    (h3 : 3 ≤ ctrls.length) (hsz : ¬auxl.length = ctrls.length - 2) :
    CnX ctrls target (some auxl) =
      match CnX (ctrls.dropLast.dropLast ++
          [((List.range (ctrls.length - 2)).map XQb.auto).getLastD xdflt]) target
          (some ((List.range (ctrls.length - 2)).map XQb.auto).dropLast) with
      | .error e => .error e
      | .ok (gs, cF, _) =>
          .ok (Gate.ccx (ctrls.getLastD xdflt) (ctrls.dropLast.getLastD xdflt)
              (((List.range (ctrls.length - 2)).map XQb.auto).getLastD xdflt) ::
              (gs ++ [Gate.ccx (ctrls.getLastD xdflt) (ctrls.dropLast.getLastD xdflt)
              (((List.range (ctrls.length - 2)).map XQb.auto).getLastD xdflt)]),
            cF, some auxl) := by
  rw [CnX]
  rw [dif_neg (by omega : ¬ctrls.length = 0), dif_neg (by omega : ¬ctrls.length = 1),
    dif_neg (by omega : ¬ctrls.length = 2)]
  simp only [if_neg hsz]

/-- C4 (amended): with more than two controls, `clean_aux=None` raises
`TypeError` before any gate is appended, but a wrongly SIZED ancilla list
is not rejected at all: the code prints a warning, creates a fresh
ancilla register and proceeds, appending the decomposition gates and
leaving the caller's list untouched. -/
theorem claim4_amended (ctrls : List XQb) (target : XQb) (h3 : 3 ≤ ctrls.length) :
    (CnX ctrls target none = Except.error PyErr.typeError) ∧
    (∀ auxl : List XQb, auxl.length ≠ ctrls.length - 2 →
      ∃ gs cF, CnX ctrls target (some auxl) = Except.ok (gs, cF, some auxl) ∧ gs ≠ []) := by
  constructor
  · rw [CnX]
    rw [dif_neg (by omega : ¬ctrls.length = 0), dif_neg (by omega : ¬ctrls.length = 1),
      dif_neg (by omega : ¬ctrls.length = 2)]
  · intro auxl hsz
    rw [CnX_fallback_eq ctrls target auxl h3 hsz]
    obtain ⟨gs, hok, hne, _, _⟩ := CnX_main (ctrls.length - 1)
      (ctrls.dropLast.dropLast ++
        [((List.range (ctrls.length - 2)).map XQb.auto).getLastD xdflt])
      target ((List.range (ctrls.length - 2)).map XQb.auto).dropLast
      (by simp only [List.length_append, List.length_dropLast, List.length_cons,
        List.length_nil]; omega)
      (by omega)
      (by intro _; simp only [List.length_dropLast, List.length_map, List.length_range]; omega)
    rw [hok]
    exact ⟨_, _, rfl, by simp⟩

/-- Witness for C4 (amended) at three concrete controls. -/
theorem claim4_amended_witness :
    (CnX [XQb.reg 0, XQb.reg 1, XQb.reg 2] (XQb.reg 3) none
      = Except.error PyErr.typeError) ∧
    (∀ auxl : List XQb, auxl.length ≠ ([XQb.reg 0, XQb.reg 1, XQb.reg 2] : List XQb).length - 2 →
      ∃ gs cF, CnX [XQb.reg 0, XQb.reg 1, XQb.reg 2] (XQb.reg 3) (some auxl)
        = Except.ok (gs, cF, some auxl) ∧ gs ≠ []) :=
  claim4_amended [XQb.reg 0, XQb.reg 1, XQb.reg 2] (XQb.reg 3) (by decide)

/-- C10: with more than two controls and a correctly sized ancilla list,
the caller's `ctrls` list comes back net one element shorter per recursion
level (there are `len(ctrls) - 2` levels) with the first ancilla
substituted for the popped controls, and the caller's `clean_aux` list
comes back shorter by one element per level, i.e. empty. -/
theorem claim10_list_mutation (ctrls : List XQb) (target : XQb) (auxl : List XQb)
    (h3 : 3 ≤ ctrls.length) (hlen : auxl.length = ctrls.length - 2) :
    ∃ gs cF aF, CnX ctrls target (some auxl) = Except.ok (gs, cF, some aF) ∧
      cF.length + (ctrls.length - 2) = ctrls.length ∧
      aF.length + (ctrls.length - 2) = auxl.length ∧
      cF = [ctrls.headD xdflt, auxl.headD xdflt] ∧ aF = [] := by
  obtain ⟨gs, hok, _⟩ := CnX_main ctrls.length ctrls target auxl rfl (by omega)
    (fun _ => hlen)
  rw [if_pos h3, if_pos h3] at hok
  exact ⟨gs, [ctrls.headD xdflt, auxl.headD xdflt], [], hok, by simp; omega, by simp; omega,
    rfl, rfl⟩

/-- Witness for C10 at four controls and two ancillas. -/
theorem claim10_witness :
    ∃ gs cF aF, CnX [XQb.reg 0, XQb.reg 1, XQb.reg 2, XQb.reg 3] (XQb.reg 4)
        (some [XQb.reg 5, XQb.reg 6]) = Except.ok (gs, cF, some aF) ∧
      cF.length + (([XQb.reg 0, XQb.reg 1, XQb.reg 2, XQb.reg 3] : List XQb).length - 2)
        = ([XQb.reg 0, XQb.reg 1, XQb.reg 2, XQb.reg 3] : List XQb).length ∧
      aF.length + (([XQb.reg 0, XQb.reg 1, XQb.reg 2, XQb.reg 3] : List XQb).length - 2)
        = ([XQb.reg 5, XQb.reg 6] : List XQb).length ∧
      cF = [([XQb.reg 0, XQb.reg 1, XQb.reg 2, XQb.reg 3] : List XQb).headD xdflt,
        ([XQb.reg 5, XQb.reg 6] : List XQb).headD xdflt] ∧ aF = [] :=
  claim10_list_mutation [XQb.reg 0, XQb.reg 1, XQb.reg 2, XQb.reg 3] (XQb.reg 4)
    [XQb.reg 5, XQb.reg 6] (by decide) (by decide)

end QN

namespace Schro

noncomputable section

/-! ## The Schrödinger notebook (`part_000`)

Module-level constants of the notebook, the discretized Hamiltonian `H`
and the `evolve` generator.  Floating-point numbers are modelled as exact
reals/complexes. -/

/-- `N = 100` grid points. -/
def N : ℕ := 100

/-- `L = 100`, length of the simulation region. -/
def L : ℝ := 100

/-- `V(x) = 0 * x`: zero potential (particle in a box). -/
def V (x : ℝ) : ℝ := 0 * x

/-- `eta = 1`, the notebook's natural constant standing in for hbar. -/
def eta : ℝ := 1

/-- `m = 1`. -/
def m : ℝ := 1

/-- `q = 1`. -/
def q : ℝ := 1

/-- `X = np.linspace(0, L, num=N) - L/2`: grid point `i` sits at
`i * (L / (N-1)) - L/2`. -/
def X (i : ℕ) : ℝ := i * (L / ((N : ℝ) - 1)) - L / 2

/-- `a = X[1] - X[0]`, the grid spacing. -/
def a : ℝ := X 1 - X 0

/-- `t = -eta**2 / (2 * m * a**2)`, the hopping coefficient. -/
def t : ℝ := -eta ^ 2 / (2 * m * a ^ 2)

/-- `eps = -2*t + q * V(X)`, the diagonal entries. -/
def eps (i : ℕ) : ℝ := -2 * t + q * V (X i)

/-- `np.eye(N, k)` as an `N × N` 0/1 matrix: ones where `j = i + k`. -/
def eyeK (k : ℤ) (i j : Fin N) : ℝ := if (j : ℤ) = (i : ℤ) + k then 1 else 0

/-- `H = t*np.eye(N, k=-1) + eps*np.eye(N) + t*np.eye(N, k=1)`; the
broadcast `eps * np.eye(N)` scales column `j` of the identity by `eps j`. -/
def H (i j : Fin N) : ℝ := t * eyeK (-1) i j + eps j * eyeK 0 i j + t * eyeK 1 i j

/-- C6: the discretized Hamiltonian is a 100×100 real tridiagonal matrix:
`H[i][i] = eps[i] = -2*t + q*V(X[i])`, `H[i][i-1] = H[i][i+1] = t` where
those indices exist, and every entry more than one place off the main
diagonal is zero. -/
theorem claim6_H_tridiagonal :
    ∀ i j : Fin N,
      H i j = (if (i : ℕ) = (j : ℕ) then eps i
        else if (j : ℕ) + 1 = (i : ℕ) ∨ (i : ℕ) + 1 = (j : ℕ) then t else 0) ∧
      eps i = -2 * t + q * V (X i) := by
  intro i j
  refine ⟨?_, rfl⟩
  unfold H eyeK
  by_cases hd : (i : ℕ) = (j : ℕ)
  · rw [if_pos hd]
    rw [if_neg (by omega : ¬(j : ℤ) = (i : ℤ) + (-1)),
      if_pos (by omega : (j : ℤ) = (i : ℤ) + 0),
      if_neg (by omega : ¬(j : ℤ) = (i : ℤ) + 1)]
    have hij : eps (j : ℕ) = eps (i : ℕ) := by rw [hd]
    rw [hij]
    ring
  · rw [if_neg hd]
    by_cases hsub : (j : ℕ) + 1 = (i : ℕ)
    · rw [if_pos (Or.inl hsub)]
      rw [if_pos (by omega : (j : ℤ) = (i : ℤ) + (-1)),
        if_neg (by omega : ¬(j : ℤ) = (i : ℤ) + 0),
        if_neg (by omega : ¬(j : ℤ) = (i : ℤ) + 1)]
      ring
    · by_cases hsup : (i : ℕ) + 1 = (j : ℕ)
      · rw [if_pos (Or.inr hsup)]
        rw [if_neg (by omega : ¬(j : ℤ) = (i : ℤ) + (-1)),
          if_neg (by omega : ¬(j : ℤ) = (i : ℤ) + 0),
          if_pos (by omega : (j : ℤ) = (i : ℤ) + 1)]
        ring
      · rw [if_neg (by omega : ¬((j : ℕ) + 1 = (i : ℕ) ∨ (i : ℕ) + 1 = (j : ℕ)))]
        rw [if_neg (by omega : ¬(j : ℤ) = (i : ℤ) + (-1)),
          if_neg (by omega : ¬(j : ℤ) = (i : ℤ) + 0),
          if_neg (by omega : ¬(j : ℤ) = (i : ℤ) + 1)]
        ring

end

end Schro

namespace Schro

noncomputable section

/-- The loop body of the `evolve` generator, with the loop counter counting
down and the running time `tcur` threaded through: each iteration computes
`phase = np.exp(-1j * E / eta * t)` at the CURRENT time, then advances
`t += timestep`, then yields `(t, phase * psi)`.  (The `ts` array the
generator builds first is never used.) -/
def evolveAux (psi : List ℂ) (E : ℝ) (timestep : ℝ) : ℕ → ℝ → List (ℝ × List ℂ)
  | 0, _ => []
  | n + 1, tcur =>
      (tcur + timestep,
        psi.map (fun z => Complex.exp
          (-Complex.I * (E : ℂ) / ((eta : ℝ) : ℂ) * ((tcur : ℝ) : ℂ)) * z)) ::
      evolveAux psi E timestep n (tcur + timestep)

/-- `evolve(psi, E, timestep=5, num_step=200)` with an integer `num_step`:
the generator yields `num_step` pairs, starting from `t = 0`. -/
def evolve (psi : List ℂ) (E : ℝ) (timestep : ℝ) (num_step : ℕ) : List (ℝ × List ℂ) :=
  evolveAux psi E timestep num_step 0

theorem evolveAux_length (psi : List ℂ) (E : ℝ) (timestep : ℝ) :
    ∀ (n : ℕ) (t0 : ℝ), (evolveAux psi E timestep n t0).length = n := by
  intro n
  induction n with
  | zero => intro t0; rfl
  | succ n ih =>
    intro t0
    show (_ :: evolveAux psi E timestep n (t0 + timestep)).length = n + 1
    rw [List.length_cons, ih (t0 + timestep)]

theorem evolveAux_getD (psi : List ℂ) (E : ℝ) (timestep : ℝ) :
    ∀ (n : ℕ) (t0 : ℝ) (k : ℕ), k < n →
    (evolveAux psi E timestep n t0).getD k (0, []) =
      (t0 + ((k : ℝ) + 1) * timestep,
        psi.map (fun z => Complex.exp
          (-Complex.I * (E : ℂ) / ((eta : ℝ) : ℂ)
            * ((t0 + (k : ℝ) * timestep : ℝ) : ℂ)) * z)) := by
  intro n
  induction n with
  | zero => intro t0 k hk; exact absurd hk (by omega)
  | succ n ih =>
    intro t0 k hk
    cases k with
    | zero =>
      rw [show evolveAux psi E timestep (n + 1) t0 =
        (t0 + timestep, psi.map (fun z => Complex.exp
          (-Complex.I * (E : ℂ) / ((eta : ℝ) : ℂ) * ((t0 : ℝ) : ℂ)) * z)) ::
        evolveAux psi E timestep n (t0 + timestep) from rfl]
      rw [List.getD_cons_zero]
      rw [show t0 + (((0 : ℕ) : ℝ) + 1) * timestep = t0 + timestep by push_cast; ring]
      rw [show (t0 + ((0 : ℕ) : ℝ) * timestep : ℝ) = t0 by push_cast; ring]
    | succ k =>
      rw [show evolveAux psi E timestep (n + 1) t0 =
        (t0 + timestep, psi.map (fun z => Complex.exp
          (-Complex.I * (E : ℂ) / ((eta : ℝ) : ℂ) * ((t0 : ℝ) : ℂ)) * z)) ::
        evolveAux psi E timestep n (t0 + timestep) from rfl]
      rw [List.getD_cons_succ]
      rw [ih (t0 + timestep) k (by omega)]
      rw [show t0 + timestep + ((k : ℝ) + 1) * timestep
        = t0 + (((k + 1 : ℕ) : ℝ) + 1) * timestep by push_cast; ring]
      rw [show (t0 + timestep + (k : ℝ) * timestep : ℝ)
        = (t0 + ((k + 1 : ℕ) : ℝ) * timestep : ℝ) by push_cast; ring]

/-- C5 counterexample: with `psi = [1]`, `E = pi/5` and the defaults, the
FIRST yielded pair is `(5, psi)` (phase `exp(0) = 1`), while the phase the
claim prescribes at the yielded time `t = 5` is
`exp(-i * (pi/5) / eta * 5) = exp(-i*pi) = -1`, so the yielded
wavefunction is not `exp(-i*E*t/eta) * psi`. -/
theorem claim5_counterexample :
    (evolve [1] (Real.pi / 5) 5 200).getD 0 (0, []) = (5, [1]) ∧
    ([1] : List ℂ) ≠
      [Complex.exp (-Complex.I * ((Real.pi / 5 : ℝ) : ℂ) / ((eta : ℝ) : ℂ)
        * ((5 : ℝ) : ℂ)) * 1] := by
  constructor
  · show (evolveAux [1] (Real.pi / 5) 5 200 0).getD 0 (0, []) = (5, [1])
    rw [evolveAux_getD [1] (Real.pi / 5) 5 200 0 0 (by norm_num)]
    rw [show (0 : ℝ) + (((0 : ℕ) : ℝ) + 1) * 5 = 5 by push_cast; ring]
    rw [show ((0 : ℝ) + ((0 : ℕ) : ℝ) * 5 : ℝ) = 0 by push_cast; ring]
    rw [show (-Complex.I * ((Real.pi / 5 : ℝ) : ℂ) / ((eta : ℝ) : ℂ) * (((0 : ℝ)) : ℂ))
      = 0 by push_cast; ring]
    rw [Complex.exp_zero]
    simp
  · rw [show (-Complex.I * ((Real.pi / 5 : ℝ) : ℂ) / ((eta : ℝ) : ℂ) * ((5 : ℝ) : ℂ))
      = -((Real.pi : ℂ) * Complex.I) by simp only [eta]; push_cast; ring]
    rw [Complex.exp_neg, Complex.exp_pi_mul_I]
    simp
    norm_num

/-- C5 (amended): with the defaults `timestep=5`, `num_step=200`, `evolve`
yields exactly 200 pairs, and the k-th yielded pair is
`(t, exp(-i*E*(t - timestep)/eta) * psi)` with `t = (k+1)*timestep`: the
phase attached to the yielded wavefunction is the textbook phase evaluated
one timestep BEFORE the yielded time. -/
theorem claim5_amended (psi : List ℂ) (E : ℝ) (k : ℕ) (hk : k < 200) :
    (evolve psi E 5 200).length = 200 ∧
    (evolve psi E 5 200).getD k (0, []) =
      (((k : ℝ) + 1) * 5,
        psi.map (fun z => Complex.exp
          (-Complex.I * (E : ℂ) / ((eta : ℝ) : ℂ) * (((k : ℝ) * 5 : ℝ) : ℂ)) * z)) := by
  constructor
  · exact evolveAux_length psi E 5 200 0
  · show (evolveAux psi E 5 200 0).getD k (0, []) = _
    rw [evolveAux_getD psi E 5 200 0 k hk]
    rw [show (0 : ℝ) + ((k : ℝ) + 1) * 5 = ((k : ℝ) + 1) * 5 by ring]
    rw [show ((0 : ℝ) + (k : ℝ) * 5 : ℝ) = ((k : ℝ) * 5 : ℝ) by ring]

/-- Witness for C5 (amended) at `psi = [1]`, `E = 0`, `k = 0`. -/
theorem claim5_amended_witness :
    (evolve [1] (0 : ℝ) 5 200).length = 200 ∧
    (evolve [1] (0 : ℝ) 5 200).getD 0 (0, []) =
      ((((0 : ℕ) : ℝ) + 1) * 5,
        [1].map (fun z => Complex.exp
          (-Complex.I * ((0 : ℝ) : ℂ) / ((eta : ℝ) : ℂ)
            * ((((0 : ℕ) : ℝ) * 5 : ℝ) : ℂ)) * z)) :=
  claim5_amended [1] 0 0 (by norm_num)

end

end Schro

namespace CHSH

/-! ## The CHSH notebook (`part_001`)

The measurement-basis-change helpers append `h`/`s`/`t`/`tdg` gates to the
circuit.  Besides its arguments `qbit0`, `qbit1`, a helper can read the
module-level register `qreg` (set by the example cell
`circ, qreg = create_cat()`); it is passed here as an explicit extra input
`qreg : ℕ → ℕ` mapping a register index to a qubit.  None of the helpers
writes to any module-level state, so the embedding returns only the
appended gate list. -/

/-- A single-qubit gate appended by the basis-change helpers. -/
inductive MGate where
  | h (q : ℕ)
  | s (q : ℕ)
  | t (q : ℕ)
  | tdg (q : ℕ)
  deriving DecidableEq, Repr

/-- `XW(circ, qbit0, qbit1)`: `h` on qubit 0; `s, h, t, h` on qubit 1. -/
def XW (qreg : ℕ → ℕ) (qbit0 qbit1 : ℕ) : List MGate :=
  [.h qbit0, .s qbit1, .h qbit1, .t qbit1, .h qbit1]

/-- `XV(circ, qbit0, qbit1)`: the code applies `circ.h(qreg[0])` — the
module-level register — instead of `qbit0`; then `s, h, tdg, h` on
qubit 1. -/
def XV (qreg : ℕ → ℕ) (qbit0 qbit1 : ℕ) : List MGate :=
  [.h (qreg 0), .s qbit1, .h qbit1, .tdg qbit1, .h qbit1]

/-- `ZW(circ, qbit0, qbit1)`: `s, h, t, h` on qubit 1 only. -/
def ZW (qreg : ℕ → ℕ) (qbit0 qbit1 : ℕ) : List MGate :=
  [.s qbit1, .h qbit1, .t qbit1, .h qbit1]

/-- `ZV(circ, qbit0, qbit1)`: `s, h, tdg, h` on qubit 1 only. -/
def ZV (qreg : ℕ → ℕ) (qbit0 qbit1 : ℕ) : List MGate :=
  [.s qbit1, .h qbit1, .tdg qbit1, .h qbit1]

/-- C7 counterexample: two `XV` calls with equal `circ`, `qbit0`, `qbit1`
arguments but different module-level `qreg` append different gates, so
`XV`'s output is NOT determined solely by its arguments. -/
theorem claim7_counterexample :
    XV (fun _ => 0) 5 6 ≠ XV (fun _ => 1) 5 6 ∧
    XV (fun _ => 0) 5 6 ≠ [MGate.h 5, MGate.s 6, MGate.h 6, MGate.tdg 6, MGate.h 6] := by
  decide

/-- C7 (amended): `XW`, `ZW` and `ZV` append gates determined solely by
their arguments (the module-level register does not influence them, and
none of the helpers mutates it), but `XV` applies its first `h` to
`qreg[0]`, the module-level register's qubit 0, ignoring `qbit0`, so its
gate list depends on the global `qreg` and not on `qbit0`. -/
theorem claim7_amended :
    (∀ (qreg qreg2 : ℕ → ℕ) (q0 q1 : ℕ), XW qreg q0 q1 = XW qreg2 q0 q1) ∧
    (∀ (qreg qreg2 : ℕ → ℕ) (q0 q1 : ℕ), ZW qreg q0 q1 = ZW qreg2 q0 q1) ∧
    (∀ (qreg qreg2 : ℕ → ℕ) (q0 q1 : ℕ), ZV qreg q0 q1 = ZV qreg2 q0 q1) ∧
    (∀ (qreg : ℕ → ℕ) (q0 q1 : ℕ),
      XV qreg q0 q1 = [MGate.h (qreg 0), MGate.s q1, MGate.h q1, MGate.tdg q1, MGate.h q1]) ∧
    (∀ (qreg : ℕ → ℕ) (q0 q02 q1 : ℕ), XV qreg q0 q1 = XV qreg q02 q1) :=
  ⟨fun _ _ _ _ => rfl, fun _ _ _ _ => rfl, fun _ _ _ _ => rfl,
    fun _ _ _ => rfl, fun _ _ _ _ => rfl⟩

end CHSH
